import Mathlib

set_option maxRecDepth 40000

/-!
Verification of the reg-rs Windows registry hive parser.

Byte images are modelled as `List Nat` (each element one octet, < 256 where
it matters). Machine integers are modelled as `Nat` / `Int` with explicit
`% 2 ^ 32` where 32-bit wrap-around matters. Fallible Rust functions
(returning `Result<T, RegistryError>`) become `Except RegistryError T`.
Decoded strings are modelled as lists of Unicode code points (`List Nat`).
`InvalidFormat` messages keep the source's fixed text but elide the
interpolated numeric values.
-/

namespace RegRs

/-- Error taxonomy of src/error.rs, restricted to the structured payloads.
The source's `format!` interpolations inside message strings are elided:
only the fixed descriptor text is kept. -/
inductive RegistryError where
  | InvalidSignature (expected found : List Nat)
  | InvalidFormat (msg : String)
  | InvalidOffset (offset : Nat) (hiveSize : Nat)
  | InvalidCellSize (size : Int) (offset : Nat)
  | UnknownCellType (sig : List Nat) (offset : Nat)
  | NotFound (what : String)
  | InvalidUtf16 (offset : Nat)
  | HiveTooSmall (size : Nat) (minimum : Nat)
  | TruncatedData (offset : Nat) (expected : Nat) (actual : Nat)
  deriving DecidableEq, Repr

/-- Little-endian 32-bit word assembled from four consecutive bytes of `l`
starting at index `i` (out-of-range bytes default to 0; callers bound-check
first, mirroring the in-bounds slice reads of the source). -/
def leU32At (l : List Nat) (i : Nat) : Nat :=
  l.getD i 0 + 256 * l.getD (i + 1) 0 + 65536 * l.getD (i + 2) 0 +
    16777216 * l.getD (i + 3) 0

/-- Little-endian 16-bit word at index `i`. -/
def leU16At (l : List Nat) (i : Nat) : Nat :=
  l.getD i 0 + 256 * l.getD (i + 1) 0

/-- Reinterpret a 32-bit word (0 ≤ w < 2^32) as a signed 32-bit integer. -/
def u32ToI32 (w : Nat) : Int :=
  if w < 2 ^ 31 then (w : Int) else (w : Int) - 2 ^ 32

/-- The 32 low bits of a signed 32-bit integer, as a natural number. -/
def i32Bits (r : Int) : Nat :=
  (r % 2 ^ 32).toNat

/-- The four little-endian bytes of a 32-bit word. -/
def toLeBytes32 (w : Nat) : List Nat :=
  [w % 256, w / 256 % 256, w / 65536 % 256, w / 16777216 % 256]

/-- utils.rs `read_u32_le`: bounds-checked little-endian u32 read. -/
def read_u32_le (data : List Nat) (offset : Nat) : Except RegistryError Nat :=
  if data.length < offset + 4 then
    .error (.TruncatedData (offset % 2 ^ 32) 4 (data.length - offset))
  else
    .ok (leU32At data offset)

/-- utils.rs `read_u16_le`: bounds-checked little-endian u16 read. -/
def read_u16_le (data : List Nat) (offset : Nat) : Except RegistryError Nat :=
  if data.length < offset + 2 then
    .error (.TruncatedData (offset % 2 ^ 32) 2 (data.length - offset))
  else
    .ok (leU16At data offset)

/-- utils.rs `read_i32_le`: bounds-checked little-endian i32 read. -/
def read_i32_le (data : List Nat) (offset : Nat) : Except RegistryError Int :=
  if data.length < offset + 4 then
    .error (.TruncatedData (offset % 2 ^ 32) 4 (data.length - offset))
  else
    .ok (u32ToI32 (leU32At data offset))

/-- utils.rs `HBIN_START_OFFSET`. -/
def HBIN_START_OFFSET : Nat := 0x1000

/-- utils.rs `cell_offset_to_absolute`: checked u32 add of 0x1000. -/
def cell_offset_to_absolute (cell_offset : Nat) : Except RegistryError Nat :=
  if cell_offset + HBIN_START_OFFSET < 2 ^ 32 then
    .ok (cell_offset + HBIN_START_OFFSET)
  else
    .error (.InvalidOffset cell_offset 0)

/-- utils.rs `absolute_to_cell_offset`. -/
def absolute_to_cell_offset (absolute_offset : Nat) : Except RegistryError Nat :=
  if absolute_offset < HBIN_START_OFFSET then
    .error (.InvalidFormat "Absolute offset is before hbin start")
  else
    .ok (absolute_offset - HBIN_START_OFFSET)

/-- utils.rs `calculate_checksum`: XOR of the 32-bit LE words at byte
offsets 0, 4, ..., 0x1F8 (that is `4*k` for `k < 127`), each taken only
when it lies fully inside the buffer, and skipped if the read fails
(which cannot happen under the same guard, mirroring the source's
`if let Ok`). -/
def calculate_checksum (data : List Nat) : Nat :=
  (List.range 127).foldl
    (fun c k =>
      if k * 4 + 4 ≤ data.length then
        match read_u32_le data (k * 4) with
        | .ok w => c ^^^ w
        | .error _ => c
      else c)
    0

/-- Overwrite `img[start .. start + d.length)` with `d`
(Rust `copy_from_slice` on the sub-slice). -/
def listOverwrite (img : List Nat) (start : Nat) (d : List Nat) : List Nat :=
  img.take start ++ d ++ img.drop (start + d.length)

/-- Drop trailing zero code points (Rust `trim_end_matches` of NUL). -/
def trimTrailingZeros (l : List Nat) : List Nat :=
  (l.reverse.dropWhile (fun c => c == 0)).reverse

/-- Lower bound of the first continuation byte for a UTF-8 lead byte. -/
def utf8C1lo (b : Nat) : Nat :=
  if b = 0xE0 then 0xA0 else if b = 0xF0 then 0x90 else 0x80

/-- Upper bound of the first continuation byte for a UTF-8 lead byte. -/
def utf8C1hi (b : Nat) : Nat :=
  if b = 0xED then 0x9F else if b = 0xF4 then 0x8F else 0xBF

/-- One step of lossy UTF-8 decoding (WHATWG "maximal subparts", the Rust
`from_utf8_lossy` behaviour): given a lead byte and the following bytes,
return the decoded code point (or U+FFFD) and how many bytes were consumed
(at least 1). An invalid continuation byte is not consumed. -/
def utf8Step (b : Nat) (rest : List Nat) : Nat × Nat :=
  if b < 0x80 then (b, 1)
  else if b < 0xC2 then (0xFFFD, 1)
  else if b < 0xE0 then
    match rest with
    | c1 :: _ =>
      if 0x80 ≤ c1 ∧ c1 ≤ 0xBF then ((b - 0xC0) * 0x40 + (c1 - 0x80), 2)
      else (0xFFFD, 1)
    | [] => (0xFFFD, 1)
  else if b < 0xF0 then
    match rest with
    | c1 :: rest1 =>
      if utf8C1lo b ≤ c1 ∧ c1 ≤ utf8C1hi b then
        match rest1 with
        | c2 :: _ =>
          if 0x80 ≤ c2 ∧ c2 ≤ 0xBF then
            ((b - 0xE0) * 0x1000 + (c1 - 0x80) * 0x40 + (c2 - 0x80), 3)
          else (0xFFFD, 2)
        | [] => (0xFFFD, 2)
      else (0xFFFD, 1)
    | [] => (0xFFFD, 1)
  else if b < 0xF5 then
    match rest with
    | c1 :: rest1 =>
      if utf8C1lo b ≤ c1 ∧ c1 ≤ utf8C1hi b then
        match rest1 with
        | c2 :: rest2 =>
          if 0x80 ≤ c2 ∧ c2 ≤ 0xBF then
            match rest2 with
            | c3 :: _ =>
              if 0x80 ≤ c3 ∧ c3 ≤ 0xBF then
                ((b - 0xF0) * 0x40000 + (c1 - 0x80) * 0x1000 +
                  (c2 - 0x80) * 0x40 + (c3 - 0x80), 4)
              else (0xFFFD, 3)
            | [] => (0xFFFD, 3)
          else (0xFFFD, 2)
        | [] => (0xFFFD, 2)
      else (0xFFFD, 1)
    | [] => (0xFFFD, 1)
  else (0xFFFD, 1)

/-- Lossy UTF-8 decoding to code points, Rust `String::from_utf8_lossy`. -/
def utf8Lossy : List Nat → List Nat
  | [] => []
  | b :: rest =>
    let s := utf8Step b rest
    s.1 :: utf8Lossy (rest.drop (s.2 - 1))
termination_by l => l.length
decreasing_by
  simp only [List.length_cons, List.length_drop]
  omega

/-- utils.rs `read_ascii_string`: lossy UTF-8 decode, then trim trailing
NUL characters. -/
def read_ascii_string (data : List Nat) : List Nat :=
  trimTrailingZeros (utf8Lossy data)

/-- Pair up bytes little-endian into 16-bit UTF-16 code units. Callers
reject odd-length input first, so a dangling final byte never occurs. -/
def utf16CodeUnits : List Nat → List Nat
  | b0 :: b1 :: rest => (b0 + 256 * b1) :: utf16CodeUnits rest
  | _ => []

/-- Strict UTF-16 decoding of code units to code points; `none` on a lone
or misordered surrogate (the `had_errors` outcome of `UTF_16LE.decode`). -/
def decodeUtf16 : List Nat → Option (List Nat)
  | [] => some []
  | u :: rest =>
    if u < 0xD800 ∨ 0xE000 ≤ u then
      (decodeUtf16 rest).map (fun t => u :: t)
    else if u < 0xDC00 then
      match rest with
      | l :: rest2 =>
        if 0xDC00 ≤ l ∧ l < 0xE000 then
          (decodeUtf16 rest2).map
            (fun t => (0x10000 + (u - 0xD800) * 0x400 + (l - 0xDC00)) :: t)
        else none
      | [] => none
    else none

/-- utils.rs `read_utf16_string`: empty input is the empty string; odd
length and decode errors yield `InvalidUtf16`; trailing NULs are trimmed. -/
def read_utf16_string (data : List Nat) (offset : Nat) :
    Except RegistryError (List Nat) :=
  if data.isEmpty then .ok []
  else if data.length % 2 ≠ 0 then .error (.InvalidUtf16 offset)
  else
    match decodeUtf16 (utf16CodeUnits data) with
    | none => .error (.InvalidUtf16 offset)
    | some cps => .ok (trimTrailingZeros cps)

/-- header.rs `BASE_BLOCK_SIZE`. -/
def BASE_BLOCK_SIZE : Nat := 4096

/-- hive.rs `Hive::update_checksum`: recompute the XOR checksum and store
its little-endian bytes at 0x1FC..0x200. -/
def update_checksum (data : List Nat) : Except RegistryError (List Nat) :=
  if data.length < BASE_BLOCK_SIZE then
    .error (.HiveTooSmall data.length BASE_BLOCK_SIZE)
  else
    .ok (listOverwrite data 0x1FC (toLeBytes32 (calculate_checksum data)))

/-- cell.rs `ValueType`: registry value data types. -/
inductive ValueType where
  | None
  | String
  | ExpandString
  | Binary
  | Dword
  | DwordBigEndian
  | Link
  | MultiString
  | ResourceList
  | FullResourceDescriptor
  | ResourceRequirementsList
  | Qword
  | Unknown (value : Nat)
  deriving DecidableEq, Repr

/-- cell.rs `ValueType::from_u32`: total on `u32`, out-of-range codes are
preserved as `Unknown` and never an error (the source's `Result` is always
`Ok`). -/
def ValueType.from_u32 (value : Nat) : Except RegistryError ValueType :=
  .ok <| match value with
    | 0 => .None
    | 1 => .String
    | 2 => .ExpandString
    | 3 => .Binary
    | 4 => .Dword
    | 5 => .DwordBigEndian
    | 6 => .Link
    | 7 => .MultiString
    | 8 => .ResourceList
    | 9 => .FullResourceDescriptor
    | 10 => .ResourceRequirementsList
    | 11 => .Qword
    | v => .Unknown v

/-- value.rs `ValueKey`: parsed "vk" cell. The name is stored as decoded
code points. -/
structure ValueKey where
  name_length : Nat
  data_length : Nat
  data_offset : Nat
  data_type : ValueType
  flags : Nat
  name : List Nat
  deriving DecidableEq, Repr

/-- Code points of the "(default)" sentinel used for an unnamed value. -/
def defaultValueName : List Nat := [40, 100, 101, 102, 97, 117, 108, 116, 41]

/-- value.rs `ValueKey::parse`. The raw 32-bit data-length field is read as
a signed i32 and the sign bit is masked off; only the masked value is
stored. -/
def ValueKey.parse (data : List Nat) (offset : Nat) :
    Except RegistryError ValueKey :=
  if data.length < 20 then .error (.TruncatedData offset 20 data.length)
  else if data.take 2 ≠ [0x76, 0x6B] then
    .error (.InvalidFormat "Expected vk signature")
  else do
    let name_length ← read_u16_le data 0x02
    let data_length_raw ← read_i32_le data 0x04
    let data_length := i32Bits data_length_raw &&& 0x7FFFFFFF
    let data_offset ← read_u32_le data 0x08
    let data_type_raw ← read_u32_le data 0x0C
    let data_type ← ValueType.from_u32 data_type_raw
    let flags ← read_u16_le data 0x10
    let name ←
      if 0 < name_length then
        if data.length < 0x14 + name_length then
          .error (.TruncatedData offset (0x14 + name_length) data.length)
        else
          let name_data := (data.drop 0x14).take name_length
          if flags &&& 0x0001 ≠ 0 then pure (read_ascii_string name_data)
          else read_utf16_string name_data offset
      else pure defaultValueName
    .ok { name_length, data_length, data_offset, data_type, flags, name }

/-- value.rs `ValueKey::is_inline_data`: the stored (already masked) data
length is at most 4 and positive. -/
def ValueKey.is_inline_data (vk : ValueKey) : Bool :=
  decide (vk.data_length ≤ 4) && decide (0 < vk.data_length)

/-- value.rs `ValueKey::inline_data`: the first `data_length` little-endian
bytes of the data-offset word. -/
def ValueKey.inline_data (vk : ValueKey) : List Nat :=
  (toLeBytes32 vk.data_offset).take vk.data_length

/-- Big-endian 32-bit word at index `i`. -/
def beU32At (l : List Nat) (i : Nat) : Nat :=
  16777216 * l.getD i 0 + 65536 * l.getD (i + 1) 0 + 256 * l.getD (i + 2) 0 +
    l.getD (i + 3) 0

/-- Little-endian 64-bit word at index `i`. -/
def leU64At (l : List Nat) (i : Nat) : Nat :=
  leU32At l i + 4294967296 * leU32At l (i + 4)

/-- value.rs `ValueData`: parsed registry value data. Strings are lists of
code points. -/
inductive ValueData where
  | None
  | String (s : List Nat)
  | ExpandString (s : List Nat)
  | Binary (b : List Nat)
  | Dword (v : Nat)
  | DwordBigEndian (v : Nat)
  | MultiString (ss : List (List Nat))
  | Qword (v : Nat)
  | Unknown (b : List Nat)
  deriving DecidableEq, Repr

/-- value.rs `ValueData::parse`: dispatch on the value type. Types without
a dedicated arm (`Link`, the resource types, `Unknown`) fall through to the
catch-all and return the raw bytes. -/
def ValueData.parse (data : List Nat) (value_type : ValueType) (offset : Nat) :
    Except RegistryError ValueData :=
  if data.isEmpty then .ok .None
  else
    match value_type with
    | .None => .ok .None
    | .String => do
      let s ← read_utf16_string data offset
      .ok (.String s)
    | .ExpandString => do
      let s ← read_utf16_string data offset
      .ok (.ExpandString s)
    | .Binary => .ok (.Binary data)
    | .Dword =>
      if data.length < 4 then .error (.TruncatedData offset 4 data.length)
      else .ok (.Dword (leU32At data 0))
    | .DwordBigEndian =>
      if data.length < 4 then .error (.TruncatedData offset 4 data.length)
      else .ok (.DwordBigEndian (beU32At data 0))
    | .Qword =>
      if data.length < 8 then .error (.TruncatedData offset 8 data.length)
      else .ok (.Qword (leU64At data 0))
    | .MultiString => do
      let full ← read_utf16_string data offset
      .ok (.MultiString ((full.splitOn 0).filter (fun s => !s.isEmpty)))
    | _ => .ok (.Unknown data)

/-- hbin.rs `CellInfo`: one cell yielded by the hbin cell iterator. -/
structure CellInfo where
  offset : Nat
  size : Nat
  is_allocated : Bool
  data : List Nat
  deriving DecidableEq, Repr

/-- hbin.rs `HbinCellIterator::next`: one step of cell iteration over an
hbin's data area. `pos` is the iterator's cursor; on a yielded cell the new
cursor is returned alongside. `none` means iteration ends (cursor past the
data, or a stored size word of zero). usize-to-u32 casts of the source are
`% 2 ^ 32`. -/
def hbinNext (data : List Nat) (hbin_offset pos : Nat) :
    Option (Except RegistryError (CellInfo × Nat)) :=
  if data.length ≤ pos then none
  else
    match read_u32_le data pos with
    | .error e => some (.error e)
    | .ok w =>
      let size : Int := u32ToI32 w
      if size = 0 then none
      else
        let absSize := size.natAbs
        if absSize < 4 then
          some (.error (.InvalidCellSize size ((hbin_offset + pos) % 2 ^ 32)))
        else if data.length < pos + absSize then
          some (.error (.TruncatedData ((hbin_offset + pos) % 2 ^ 32) absSize
            (data.length - pos)))
        else
          some (.ok
            ({ offset := (hbin_offset + pos) % 2 ^ 32
               size := absSize
               is_allocated := decide (size < 0)
               data := (data.drop (pos + 4)).take (absSize - 4) },
             pos + absSize))

/-- transaction_log.rs `PAGE_SIZE`. -/
def PAGE_SIZE : Nat := 0x1000

/-- transaction_log.rs `MAX_HIVE_SIZE` (512 MiB). -/
def MAX_HIVE_SIZE : Nat := 512 * 1024 * 1024

/-- transaction_log.rs `MAX_PAGE_EXTENSION` (16 MiB). -/
def MAX_PAGE_EXTENSION : Nat := 16 * 1024 * 1024

/-- transaction_log.rs `DirtyPage`. -/
structure DirtyPage where
  offset : Nat
  size : Nat
  data : List Nat
  deriving DecidableEq, Repr

/-- transaction_log.rs `TransactionLog`. -/
structure TransactionLog where
  sequence : Nat
  dirty_pages : List DirtyPage
  deriving DecidableEq, Repr

/-- Rust `usize::checked_add` (usize is 64-bit here). -/
def checkedAddUsize (a b : Nat) : Option Nat :=
  if a + b < 2 ^ 64 then some (a + b) else none

/-- One iteration of the loop in transaction_log.rs
`TransactionLog::apply_to_hive`: validate and apply a single dirty page to
the image. -/
def applyPage (hive : List Nat) (page : DirtyPage) :
    Except RegistryError (List Nat) :=
  match checkedAddUsize page.offset page.size with
  | none => .error (.InvalidFormat "Dirty page offset overflow")
  | some e =>
    if MAX_HIVE_SIZE < e then
      .error (.InvalidFormat "Dirty page would extend hive beyond maximum size")
    else if hive.length < e ∧ MAX_PAGE_EXTENSION < e - hive.length then
      .error (.InvalidFormat "Dirty page would extend hive by too much")
    else
      let grown :=
        if hive.length < e then hive ++ List.replicate (e - hive.length) 0
        else hive
      if page.data.length ≠ page.size then
        .error (.InvalidFormat "Dirty page data size mismatch")
      else
        .ok (listOverwrite grown page.offset page.data)

/-- transaction_log.rs `TransactionLog::apply_to_hive`: apply the dirty
pages in order. The source mutates the image and returns the count of
applied pages; the model returns the final image. -/
def applyToHive (log : TransactionLog) (hive : List Nat) :
    Except RegistryError (List Nat) :=
  log.dirty_pages.foldlM (fun h p => applyPage h p) hive

/-- Stable insertion of a log into a list already sorted by sequence
number: the new log goes after existing logs of equal key, matching the
stability of Rust `sort_by_key`. -/
def insertBySeq (l : TransactionLog) :
    List TransactionLog → List TransactionLog
  | [] => [l]
  | x :: xs =>
    if x.sequence ≤ l.sequence then x :: insertBySeq l xs else l :: x :: xs

/-- Stable sort of logs by ascending sequence number
(transaction_log.rs `sorted_logs.sort_by_key(|log| log.sequence)`). -/
def sortLogsBySeq (logs : List TransactionLog) : List TransactionLog :=
  logs.foldl (fun acc l => insertBySeq l acc) []

/-- transaction_log.rs `apply_transaction_logs`: sort by ascending sequence
number, then apply each log in that order. -/
def apply_transaction_logs (hive : List Nat) (logs : List TransactionLog) :
    Except RegistryError (List Nat) :=
  (sortLogsBySeq logs).foldlM (fun h log => applyToHive log h) hive

/-- hive.rs `Hive::read_cell`: convert the cell offset to absolute, check
bounds, read the signed 32-bit size word, and return the cell payload
(excluding the size field). -/
def read_cell (data : List Nat) (offset : Nat) :
    Except RegistryError (List Nat) := do
  let absOffset ← cell_offset_to_absolute offset
  if data.length ≤ absOffset then
    .error (.InvalidOffset offset data.length)
  else if data.length < absOffset + 4 then
    .error (.TruncatedData offset 4 (data.length - absOffset))
  else
    let size := u32ToI32 (leU32At data absOffset)
    let absSize := size.natAbs
    if absSize < 4 then .error (.InvalidCellSize size offset)
    else if data.length < absOffset + absSize then
      .error (.TruncatedData offset absSize (data.length - absOffset))
    else
      .ok ((data.drop (absOffset + 4)).take (absSize - 4))

/-- bigdata.rs `BigDataBlock`. -/
structure BigDataBlock where
  segment_count : Nat
  segment_list_offset : Nat
  deriving DecidableEq, Repr

/-- bigdata.rs `BigDataBlock::parse`: requires 8 octets and a "db"
signature. -/
def BigDataBlock.parse (data : List Nat) (offset : Nat) :
    Except RegistryError BigDataBlock :=
  if data.length < 8 then .error (.TruncatedData offset 8 data.length)
  else if data.take 2 ≠ [0x64, 0x62] then
    .error (.InvalidFormat "Expected db signature")
  else do
    let segment_count ← read_u16_le data 0x02
    let segment_list_offset := leU32At data 0x04
    .ok { segment_count, segment_list_offset }

/-- The segment loop of hive.rs `Hive::read_big_data`: read each segment
cell, appending its payload, and stop early as soon as the accumulated
data reaches the expected length. -/
def readSegments (data : List Nat) (offsets : List Nat) (acc : List Nat)
    (expected : Nat) : Except RegistryError (List Nat) :=
  match offsets with
  | [] => .ok acc
  | o :: rest => do
    let seg ← read_cell data o
    let acc2 := acc ++ seg
    if expected ≤ acc2.length then .ok acc2
    else readSegments data rest acc2 expected

/-- hive.rs `Hive::read_big_data`: parse the "db" header, read the
segment-offset cell (error if shorter than 4·count), mask the high bit of
each segment offset, concatenate the segment payloads, and truncate to the
expected length. -/
def read_big_data (data : List Nat) (offset : Nat) (expected_length : Nat) :
    Except RegistryError (List Nat) := do
  let header_cell ← read_cell data offset
  let db ← BigDataBlock.parse header_cell offset
  let segment_list_cell ← read_cell data db.segment_list_offset
  if segment_list_cell.length < db.segment_count * 4 then
    .error (.TruncatedData db.segment_list_offset (db.segment_count * 4)
      segment_list_cell.length)
  else
    let segment_offsets := (List.range db.segment_count).map
      (fun i => leU32At segment_list_cell (i * 4) &&& 0x7FFFFFFF)
    let d ← readSegments data segment_offsets [] expected_length
    .ok (d.take expected_length)

/-- key.rs `KeyNode`: parsed "nk" cell (fields only; the claims under
verification do not exercise `KeyNode::parse`). -/
structure KeyNode where
  flags : Nat
  last_written : Nat
  access_bits : Nat
  parent_offset : Nat
  subkey_count : Nat
  volatile_subkey_count : Nat
  subkey_list_offset : Nat
  volatile_subkey_list_offset : Nat
  value_count : Nat
  value_list_offset : Nat
  security_offset : Nat
  class_name_offset : Nat
  max_subkey_name_len : Nat
  max_subkey_class_len : Nat
  max_value_name_len : Nat
  max_value_data_len : Nat
  work_var : Nat
  name_length : Nat
  class_name_length : Nat
  name : List Nat
  deriving DecidableEq, Repr

/-- key.rs `KeyNode::has_values`. -/
def KeyNode.has_values (kn : KeyNode) : Bool :=
  decide (0 < kn.value_count)

/-- hive.rs `RegistryKey::values`: empty result when the key has no values
or the value-list offset is a sentinel; otherwise read the value list cell
and parse each referenced "vk" cell. -/
def registryKeyValues (data : List Nat) (kn : KeyNode) :
    Except RegistryError (List ValueKey) :=
  if !kn.has_values then .ok []
  else if kn.value_list_offset = 0xFFFFFFFF ∨ kn.value_list_offset = 0 then
    .ok []
  else do
    let list_data ← read_cell data kn.value_list_offset
    if list_data.length < kn.value_count * 4 then
      .error (.TruncatedData kn.value_list_offset (kn.value_count * 4)
        list_data.length)
    else
      (List.range kn.value_count).mapM (fun i => do
        let vkOffset := leU32At list_data (i * 4)
        let cell_data ← read_cell data vkOffset
        ValueKey.parse cell_data vkOffset)

/-! Concrete fixtures used by counterexamples and witnesses. -/

/-- A 20-octet "vk" cell whose raw data-length word is 4 (high bit clear),
with inline-looking data 01 02 03 04 in the data-offset field and type
Dword. -/
def vkInlineNoHighBit : List Nat :=
  [0x76, 0x6B, 0, 0, 4, 0, 0, 0, 1, 2, 3, 4, 4, 0, 0, 0, 0, 0, 0, 0]

/-- The parse result of `vkInlineNoHighBit`. -/
def vkInlineNoHighBitParsed : ValueKey :=
  { name_length := 0, data_length := 4, data_offset := 0x04030201,
    data_type := .Dword, flags := 0, name := defaultValueName }

/-- A key node claiming one value but with the sentinel value-list offset 0. -/
def knSentinel : KeyNode :=
  { flags := 0, last_written := 0, access_bits := 0, parent_offset := 0,
    subkey_count := 0, volatile_subkey_count := 0, subkey_list_offset := 0,
    volatile_subkey_list_offset := 0, value_count := 1, value_list_offset := 0,
    security_offset := 0, class_name_offset := 0, max_subkey_name_len := 0,
    max_subkey_class_len := 0, max_value_name_len := 0, max_value_data_len := 0,
    work_var := 0, name_length := 0, class_name_length := 0, name := [] }

/-- A miniature hive image: a 4096-octet base block of zeros, then a "db"
header cell at cell offset 0 (2 segments, segment list at cell offset 16),
the segment-offset cell at 16 (offsets 28 and 40, high bits set), an
8-octet segment at 28 and a 4-octet segment at 40. -/
def bigWTail : List Nat :=
  [0xF0, 0xFF, 0xFF, 0xFF, 0x64, 0x62, 2, 0, 16, 0, 0, 0, 0, 0, 0, 0] ++
    [0xF4, 0xFF, 0xFF, 0xFF, 0x1C, 0, 0, 0x80, 0x28, 0, 0, 0x80] ++
    [0xF4, 0xFF, 0xFF, 0xFF, 1, 2, 3, 4, 5, 6, 7, 8] ++
    [0xF8, 0xFF, 0xFF, 0xFF, 9, 10, 11, 12]

def bigW : List Nat :=
  List.replicate 4096 0 ++ bigWTail

/-- A dirty page writing 1 1 1 1 at offset 2. -/
def pageP1 : DirtyPage := { offset := 2, size := 4, data := [1, 1, 1, 1] }

/-- A dirty page writing 2 2 2 2 at offset 2. -/
def pageP2 : DirtyPage := { offset := 2, size := 4, data := [2, 2, 2, 2] }

/-- A log with sequence 10 carrying `pageP1`. -/
def logSeq10 : TransactionLog := { sequence := 10, dirty_pages := [pageP1] }

/-- A log with sequence 11 carrying `pageP2`. -/
def logSeq11 : TransactionLog := { sequence := 11, dirty_pages := [pageP2] }

/-! Helper lemmas. -/

/-- Bind of an `ok` value reduces. -/
theorem okBind {ε α β : Type} (a : α) (f : α → Except ε β) :
    (Except.ok a >>= f) = f a := rfl

/-- Bind of an `error` value reduces. -/
theorem errBind {ε α β : Type} (e : ε) (f : α → Except ε β) :
    ((Except.error e : Except ε α) >>= f) = Except.error e := rfl

/-- Bind of a `pure` value reduces. -/
theorem pureBind {ε α β : Type} (a : α) (f : α → Except ε β) :
    ((pure a : Except ε α) >>= f) = f a := rfl

/-! Claim theorems. -/

/-- C8: cell-to-absolute offset conversion round-trips below the u32
overflow bound, overflows at u32::MAX, and the inverse rejects absolute
offsets below the hbin start. -/
theorem offset_conversion_roundtrip :
    (∀ x : Nat, x + 0x1000 < 2 ^ 32 →
      (cell_offset_to_absolute x >>= absolute_to_cell_offset) = .ok x)
    ∧ cell_offset_to_absolute 4294967295 =
        .error (.InvalidOffset 4294967295 0)
    ∧ absolute_to_cell_offset 0x0FFF =
        .error (.InvalidFormat "Absolute offset is before hbin start") := by
  refine ⟨?_, ?_, ?_⟩
  · intro x hx
    have h1 : cell_offset_to_absolute x = .ok (x + 0x1000) := by
      unfold cell_offset_to_absolute HBIN_START_OFFSET
      rw [if_pos hx]
    rw [h1, okBind]
    unfold absolute_to_cell_offset HBIN_START_OFFSET
    rw [if_neg (by omega)]
    have hsub : x + 0x1000 - 0x1000 = x := by omega
    rw [hsub]
  · unfold cell_offset_to_absolute HBIN_START_OFFSET
    rw [if_neg (by norm_num)]
  · unfold absolute_to_cell_offset HBIN_START_OFFSET
    rw [if_pos (by norm_num)]

/-- C8 witness: the round-trip at the concrete cell offset 3. -/
theorem offset_conversion_roundtrip_witness :
    (cell_offset_to_absolute 3 >>= absolute_to_cell_offset) = .ok 3 :=
  offset_conversion_roundtrip.1 3 (by norm_num)

/-- C4 counterexample: a two-octet buffer parsed with type `Link` is
returned as raw `Unknown` bytes, while the same buffer parsed with type
`String` decodes as UTF-16LE; the results differ. -/
theorem link_raw_counterexample :
    ValueData.parse [97, 0] ValueType.Link 0 = .ok (.Unknown [97, 0])
    ∧ ValueData.parse [97, 0] ValueType.String 0 = .ok (.String [97])
    ∧ (ValueData.Unknown [97, 0] ≠ ValueData.String [97]) :=
  ⟨rfl, rfl, by decide⟩

/-- C4 (amended): for every non-empty data buffer, type `Link` falls
through to the catch-all arm and yields the raw bytes as `Unknown`. -/
theorem link_returns_raw_unknown (data : List Nat) (offset : Nat)
    (h : data ≠ []) :
    ValueData.parse data ValueType.Link offset = .ok (.Unknown data) := by
  unfold ValueData.parse
  rw [if_neg (by simpa using h)]

/-- C4 witness: the amended claim at the concrete buffer 97 0. -/
theorem link_returns_raw_unknown_witness :
    ValueData.parse [97, 0] ValueType.Link 0 = .ok (.Unknown [97, 0]) :=
  link_returns_raw_unknown [97, 0] 0 (by decide)


/-- C5 counterexample: the UTF-16LE bytes of the string a NUL NUL b NUL
NUL parse as MultiString 97 98: the embedded empty component between the
two NULs is dropped, not preserved. -/
theorem multistring_counterexample :
    ValueData.parse [97, 0, 0, 0, 0, 0, 98, 0, 0, 0, 0, 0]
        ValueType.MultiString 0 = .ok (.MultiString [[97], [98]])
    ∧ ([[97], [98]] : List (List Nat)) ≠ [[97], [], [98]] :=
  ⟨rfl, by decide⟩

/-- C5 (amended): MultiString decodes the buffer as UTF-16LE and splits on
NUL, dropping all empty components, embedded ones included; no component
of the result is empty. -/
theorem multistring_drops_all_empties (data : List Nat) (offset : Nat)
    (cps : List Nat) (hdec : read_utf16_string data offset = .ok cps)
    (h : data ≠ []) :
    ValueData.parse data ValueType.MultiString offset =
      .ok (.MultiString ((cps.splitOn 0).filter (fun s => !s.isEmpty)))
    ∧ ∀ ss, ValueData.parse data ValueType.MultiString offset =
        .ok (.MultiString ss) → [] ∉ ss := by
  have hp : ValueData.parse data ValueType.MultiString offset =
      .ok (.MultiString ((cps.splitOn 0).filter (fun s => !s.isEmpty))) := by
    unfold ValueData.parse
    rw [if_neg (by simpa using h)]
    rw [hdec]
    rfl
  refine ⟨hp, ?_⟩
  intro ss hss hmem
  rw [hp] at hss
  have hinj : (cps.splitOn 0).filter (fun s => !s.isEmpty) = ss := by
    injection hss with h1
    injection h1
  rw [← hinj] at hmem
  have := List.of_mem_filter hmem
  simp at this


/-- C5 witness: the amended claim at the concrete UTF-16LE buffer
a NUL NUL b NUL NUL. -/
theorem multistring_drops_all_empties_witness :
    ValueData.parse [97, 0, 0, 0, 0, 0, 98, 0, 0, 0, 0, 0]
        ValueType.MultiString 0 =
      .ok (.MultiString ((([97, 0, 0, 98] : List Nat).splitOn 0).filter
        (fun s => !s.isEmpty)))
    ∧ ∀ ss, ValueData.parse [97, 0, 0, 0, 0, 0, 98, 0, 0, 0, 0, 0]
        ValueType.MultiString 0 = .ok (.MultiString ss) → [] ∉ ss :=
  multistring_drops_all_empties [97, 0, 0, 0, 0, 0, 98, 0, 0, 0, 0, 0] 0
    [97, 0, 0, 98] rfl (by decide)


/-- C1 counterexample: a "vk" cell whose raw 32-bit data-length word is 4
(high bit clear, as witnessed by `read_i32_le` returning the non-negative
value 4) still parses with `is_inline_data` true, so inlining is not
decided by the high bit; and the parsed `data_length` holds only the
masked value, not the raw word. -/
theorem vk_inline_highbit_counterexample :
    ValueKey.parse vkInlineNoHighBit 0 = .ok vkInlineNoHighBitParsed
    ∧ vkInlineNoHighBitParsed.is_inline_data = true
    ∧ read_i32_le vkInlineNoHighBit 0x04 = .ok 4 :=
  ⟨rfl, rfl, rfl⟩

/-- C1 (amended): whenever a "vk" cell parses, the stored `data_length` is
the raw signed 32-bit data-length word with its sign bit masked off, and
`is_inline_data` is true exactly when that masked effective length lies in
1..4, independent of the raw word's high bit. -/
theorem vk_inline_iff_masked_length (data : List Nat) (offset : Nat)
    (vk : ValueKey) (raw : Int)
    (hok : ValueKey.parse data offset = .ok vk)
    (hraw : read_i32_le data 0x04 = .ok raw) :
    vk.data_length = i32Bits raw &&& 0x7FFFFFFF
    ∧ (vk.is_inline_data = true ↔ 1 ≤ vk.data_length ∧ vk.data_length ≤ 4) := by
  unfold ValueKey.parse at hok
  by_cases h20 : data.length < 20
  · rw [if_pos h20] at hok
    exact absurd hok (by simp)
  rw [if_neg h20] at hok
  by_cases hsig : data.take 2 ≠ [0x76, 0x6B]
  · rw [if_pos hsig] at hok
    exact absurd hok (by simp)
  rw [if_neg hsig] at hok
  have e1 : read_u16_le data 0x02 = .ok (leU16At data 0x02) := by
    unfold read_u16_le
    rw [if_neg (by omega)]
  have e5 : read_u16_le data 0x10 = .ok (leU16At data 0x10) := by
    unfold read_u16_le
    rw [if_neg (by omega)]
  have e3 : read_u32_le data 0x08 = .ok (leU32At data 0x08) := by
    unfold read_u32_le
    rw [if_neg (by omega)]
  have e4 : read_u32_le data 0x0C = .ok (leU32At data 0x0C) := by
    unfold read_u32_le
    rw [if_neg (by omega)]
  rw [e1, okBind, hraw, okBind, e3, okBind, e4, okBind] at hok
  unfold ValueType.from_u32 at hok
  rw [okBind, e5, okBind] at hok
  simp only [bind, Except.bind, pure, Except.pure] at hok
  split at hok
  · split at hok
    · simp at hok
    · split at hok
      · injection hok with hvk
        subst hvk
        refine ⟨rfl, ?_⟩
        unfold ValueKey.is_inline_data
        simp only [Bool.and_eq_true, decide_eq_true_eq]
        omega
      · rcases hu : read_utf16_string
            ((data.drop 0x14).take (leU16At data 0x02)) offset with e | nm
        · rw [hu] at hok
          simp at hok
        · rw [hu] at hok
          simp only [Except.bind] at hok
          injection hok with hvk
          subst hvk
          refine ⟨rfl, ?_⟩
          unfold ValueKey.is_inline_data
          simp only [Bool.and_eq_true, decide_eq_true_eq]
          omega
  · injection hok with hvk
    subst hvk
    refine ⟨rfl, ?_⟩
    unfold ValueKey.is_inline_data
    simp only [Bool.and_eq_true, decide_eq_true_eq]
    omega


/-- C1 witness: the amended claim at the concrete cell
`vkInlineNoHighBit`, whose raw data-length word is 4. -/
theorem vk_inline_iff_masked_length_witness :
    vkInlineNoHighBitParsed.data_length = i32Bits 4 &&& 0x7FFFFFFF
    ∧ (vkInlineNoHighBitParsed.is_inline_data = true ↔
        1 ≤ vkInlineNoHighBitParsed.data_length
        ∧ vkInlineNoHighBitParsed.data_length ≤ 4) :=
  vk_inline_iff_masked_length vkInlineNoHighBit 0 vkInlineNoHighBitParsed 4
    rfl rfl


/-- The checked offset+size addition of `apply_to_hive` fails exactly at
the 64-bit usize bound. -/
theorem checkedAdd_none (a b : Nat) (h : 2 ^ 64 ≤ a + b) :
    checkedAddUsize a b = none := by
  unfold checkedAddUsize
  rw [if_neg (by omega)]

/-- The checked offset+size addition below the 64-bit bound. -/
theorem checkedAdd_some (a b : Nat) (h : a + b < 2 ^ 64) :
    checkedAddUsize a b = some (a + b) := by
  unfold checkedAddUsize
  rw [if_pos h]

/-- The body of `applyPage` once the checked addition has succeeded. -/
theorem applyPage_some_form (hive : List Nat) (page : DirtyPage)
    (hlt : page.offset + page.size < 2 ^ 64) :
    applyPage hive page =
      (if MAX_HIVE_SIZE < page.offset + page.size then
        .error (.InvalidFormat "Dirty page would extend hive beyond maximum size")
      else if hive.length < page.offset + page.size ∧
          MAX_PAGE_EXTENSION < page.offset + page.size - hive.length then
        .error (.InvalidFormat "Dirty page would extend hive by too much")
      else if page.data.length ≠ page.size then
        .error (.InvalidFormat "Dirty page data size mismatch")
      else
        .ok (listOverwrite
          (if hive.length < page.offset + page.size then
            hive ++ List.replicate (page.offset + page.size - hive.length) 0
          else hive)
          page.offset page.data)) := by
  unfold applyPage
  rw [checkedAdd_some _ _ hlt]

/-- Overflow branch of a single dirty-page application. -/
theorem applyPage_overflow (hive : List Nat) (page : DirtyPage)
    (h : 2 ^ 64 ≤ page.offset + page.size) :
    applyPage hive page = .error (.InvalidFormat "Dirty page offset overflow") := by
  unfold applyPage
  rw [checkedAdd_none _ _ h]

/-- Maximum-hive-size branch of a single dirty-page application. -/
theorem applyPage_beyond_max (hive : List Nat) (page : DirtyPage)
    (hlt : page.offset + page.size < 2 ^ 64)
    (h : MAX_HIVE_SIZE < page.offset + page.size) :
    applyPage hive page =
      .error (.InvalidFormat "Dirty page would extend hive beyond maximum size") := by
  rw [applyPage_some_form hive page hlt]
  exact if_pos h

/-- Over-large-extension branch of a single dirty-page application. -/
theorem applyPage_extension_too_big (hive : List Nat) (page : DirtyPage)
    (h1 : page.offset + page.size ≤ MAX_HIVE_SIZE)
    (h2 : hive.length < page.offset + page.size)
    (h3 : MAX_PAGE_EXTENSION < page.offset + page.size - hive.length) :
    applyPage hive page =
      .error (.InvalidFormat "Dirty page would extend hive by too much") := by
  rw [applyPage_some_form hive page (by unfold MAX_HIVE_SIZE at h1; omega)]
  rw [if_neg (by omega)]
  exact if_pos ⟨h2, h3⟩

/-- Size-mismatch branch of a single dirty-page application. -/
theorem applyPage_size_mismatch (hive : List Nat) (page : DirtyPage)
    (h1 : page.offset + page.size ≤ MAX_HIVE_SIZE)
    (h2 : hive.length < page.offset + page.size →
      page.offset + page.size - hive.length ≤ MAX_PAGE_EXTENSION)
    (h3 : page.data.length ≠ page.size) :
    applyPage hive page =
      .error (.InvalidFormat "Dirty page data size mismatch") := by
  rw [applyPage_some_form hive page (by unfold MAX_HIVE_SIZE at h1; omega)]
  rw [if_neg (by omega)]
  rw [if_neg (by intro hand; exact absurd (h2 hand.1) (by omega))]
  exact if_pos h3

/-- Successful application without growing the image. -/
theorem applyPage_ok_fit (hive : List Nat) (page : DirtyPage)
    (h1 : page.offset + page.size ≤ MAX_HIVE_SIZE)
    (h2 : page.offset + page.size ≤ hive.length)
    (h4 : page.data.length = page.size) :
    applyPage hive page = .ok (listOverwrite hive page.offset page.data) := by
  rw [applyPage_some_form hive page (by unfold MAX_HIVE_SIZE at h1; omega)]
  rw [if_neg (by omega)]
  rw [if_neg (by omega)]
  rw [if_neg (by omega)]
  rw [if_neg (by omega)]

/-- Successful application that grows the image with zero fill. -/
theorem applyPage_ok_grow (hive : List Nat) (page : DirtyPage)
    (h1 : page.offset + page.size ≤ MAX_HIVE_SIZE)
    (h2 : hive.length < page.offset + page.size)
    (h3 : page.offset + page.size - hive.length ≤ MAX_PAGE_EXTENSION)
    (h4 : page.data.length = page.size) :
    applyPage hive page =
      .ok (listOverwrite
        (hive ++ List.replicate (page.offset + page.size - hive.length) 0)
        page.offset page.data) := by
  rw [applyPage_some_form hive page (by unfold MAX_HIVE_SIZE at h1; omega)]
  rw [if_neg (by omega)]
  rw [if_neg (by omega)]
  rw [if_neg (by omega)]
  rw [if_pos h2]

/-- C2: applying a parsed transaction log processes the dirty pages in
order, and each page follows the documented cascade: usize overflow of
offset+size is InvalidFormat; end beyond 512 MiB is InvalidFormat; growth
beyond 16 MiB is InvalidFormat; a payload whose length differs from the
declared size is InvalidFormat; otherwise the page is copied over
image[offset..end], growing the image with zero fill first if needed. -/
theorem apply_dirty_page_branches (hive : List Nat) (page : DirtyPage) :
    (∀ log : TransactionLog, applyToHive log hive =
      log.dirty_pages.foldlM (fun h p => applyPage h p) hive)
    ∧ (2 ^ 64 ≤ page.offset + page.size →
      applyPage hive page = .error (.InvalidFormat "Dirty page offset overflow"))
    ∧ (page.offset + page.size < 2 ^ 64 →
      MAX_HIVE_SIZE < page.offset + page.size →
      applyPage hive page =
        .error (.InvalidFormat "Dirty page would extend hive beyond maximum size"))
    ∧ (page.offset + page.size ≤ MAX_HIVE_SIZE →
      hive.length < page.offset + page.size →
      MAX_PAGE_EXTENSION < page.offset + page.size - hive.length →
      applyPage hive page =
        .error (.InvalidFormat "Dirty page would extend hive by too much"))
    ∧ (page.offset + page.size ≤ MAX_HIVE_SIZE →
      (hive.length < page.offset + page.size →
        page.offset + page.size - hive.length ≤ MAX_PAGE_EXTENSION) →
      page.data.length ≠ page.size →
      applyPage hive page =
        .error (.InvalidFormat "Dirty page data size mismatch"))
    ∧ (page.offset + page.size ≤ MAX_HIVE_SIZE →
      page.offset + page.size ≤ hive.length →
      page.data.length = page.size →
      applyPage hive page = .ok (listOverwrite hive page.offset page.data))
    ∧ (page.offset + page.size ≤ MAX_HIVE_SIZE →
      hive.length < page.offset + page.size →
      page.offset + page.size - hive.length ≤ MAX_PAGE_EXTENSION →
      page.data.length = page.size →
      applyPage hive page =
        .ok (listOverwrite
          (hive ++ List.replicate (page.offset + page.size - hive.length) 0)
          page.offset page.data)) :=
  ⟨fun _ => rfl,
   applyPage_overflow hive page,
   applyPage_beyond_max hive page,
   applyPage_extension_too_big hive page,
   applyPage_size_mismatch hive page,
   fun h1 h2 h4 => applyPage_ok_fit hive page h1 h2 h4,
   applyPage_ok_grow hive page⟩

/-- C2 witness: the spec's example dirty page (offset u32::MAX - 100,
size 200) is rejected with InvalidFormat. -/
theorem apply_dirty_page_branches_witness :
    applyPage (List.replicate 0x2000 0)
      { offset := 4294967195, size := 200, data := List.replicate 200 170 } =
      .error (.InvalidFormat "Dirty page would extend hive beyond maximum size") :=
  (apply_dirty_page_branches (List.replicate 0x2000 0)
      { offset := 4294967195, size := 200, data := List.replicate 200 170 }).2.2.1
    (by norm_num) (by norm_num [MAX_HIVE_SIZE])


/-- Overwriting a region inside the image preserves its length. -/
theorem listOverwrite_length (img : List Nat) (start : Nat) (d : List Nat)
    (h : start + d.length ≤ img.length) :
    (listOverwrite img start d).length = img.length := by
  unfold listOverwrite
  simp only [List.length_append, List.length_take, List.length_drop]
  omega

/-- Reading back an overwritten in-bounds region yields the written data. -/
theorem listOverwrite_extract (img : List Nat) (start : Nat) (d : List Nat)
    (h : start + d.length ≤ img.length) :
    ((listOverwrite img start d).drop start).take d.length = d := by
  unfold listOverwrite
  have htl : (img.take start).length = start := by
    rw [List.length_take]
    omega
  calc ((img.take start ++ d ++ img.drop (start + d.length)).drop start).take
        d.length
      = ((img.take start ++ (d ++ img.drop (start + d.length))).drop
          (img.take start).length).take d.length := by
        rw [htl, List.append_assoc]
    _ = (d ++ img.drop (start + d.length)).take d.length := by
        rw [List.drop_left]
    _ = d := List.take_left d _

/-- C3: merging sorts the logs by ascending sequence number; for two
single-page logs with distinct sequence numbers writing the same region,
both argument orders give the same image, and the written region ends up
holding the payload of the log with the higher sequence number. -/
theorem merge_sorted_by_sequence (hive : List Nat) (l1 l2 : TransactionLog)
    (p1 p2 : DirtyPage)
    (hseq : l1.sequence < l2.sequence)
    (hp1 : l1.dirty_pages = [p1]) (hp2 : l2.dirty_pages = [p2])
    (hoff : p1.offset = p2.offset) (hsz : p1.size = p2.size)
    (hd1 : p1.data.length = p1.size) (hd2 : p2.data.length = p2.size)
    (hmax : p2.offset + p2.size ≤ MAX_HIVE_SIZE)
    (hfit : p2.offset + p2.size ≤ hive.length) :
    apply_transaction_logs hive [l1, l2] =
      .ok (listOverwrite (listOverwrite hive p1.offset p1.data)
        p2.offset p2.data)
    ∧ apply_transaction_logs hive [l2, l1] =
      apply_transaction_logs hive [l1, l2]
    ∧ ((listOverwrite (listOverwrite hive p1.offset p1.data)
        p2.offset p2.data).drop p2.offset).take p2.size = p2.data := by
  have e1 : applyPage hive p1 = .ok (listOverwrite hive p1.offset p1.data) :=
    applyPage_ok_fit hive p1 (by omega) (by omega) hd1
  have hlen1 : (listOverwrite hive p1.offset p1.data).length = hive.length :=
    listOverwrite_length hive p1.offset p1.data (by omega)
  have e2 : applyPage (listOverwrite hive p1.offset p1.data) p2 =
      .ok (listOverwrite (listOverwrite hive p1.offset p1.data)
        p2.offset p2.data) :=
    applyPage_ok_fit _ p2 hmax (by omega) hd2
  have a1 : applyToHive l1 hive =
      .ok (listOverwrite hive p1.offset p1.data) := by
    unfold applyToHive
    rw [hp1]
    show applyPage hive p1 >>= (fun b => pure b) = _
    rw [e1, okBind]
    rfl
  have a2 : applyToHive l2 (listOverwrite hive p1.offset p1.data) =
      .ok (listOverwrite (listOverwrite hive p1.offset p1.data)
        p2.offset p2.data) := by
    unfold applyToHive
    rw [hp2]
    show applyPage _ p2 >>= (fun b => pure b) = _
    rw [e2, okBind]
    rfl
  have hsort1 : sortLogsBySeq [l1, l2] = [l1, l2] := by
    show insertBySeq l2 (insertBySeq l1 []) = [l1, l2]
    show insertBySeq l2 [l1] = [l1, l2]
    unfold insertBySeq
    rw [if_pos (Nat.le_of_lt hseq)]
    rfl
  have hsort2 : sortLogsBySeq [l2, l1] = [l1, l2] := by
    show insertBySeq l1 (insertBySeq l2 []) = [l1, l2]
    show insertBySeq l1 [l2] = [l1, l2]
    unfold insertBySeq
    rw [if_neg (by omega)]
  have run1 : apply_transaction_logs hive [l1, l2] =
      .ok (listOverwrite (listOverwrite hive p1.offset p1.data)
        p2.offset p2.data) := by
    unfold apply_transaction_logs
    rw [hsort1]
    show (applyToHive l1 hive >>= fun h =>
      applyToHive l2 h >>= fun h2 => pure h2) = _
    rw [a1, okBind, a2, okBind]
    rfl
  refine ⟨run1, ?_, ?_⟩
  · rw [run1]
    unfold apply_transaction_logs
    rw [hsort2]
    show (applyToHive l1 hive >>= fun h =>
      applyToHive l2 h >>= fun h2 => pure h2) = _
    rw [a1, okBind, a2, okBind]
    rfl
  · rw [← hd2]
    exact listOverwrite_extract (listOverwrite hive p1.offset p1.data)
      p2.offset p2.data (by rw [hlen1]; omega)


/-- C3 witness: the two fixture logs applied to an 8-octet zero image in
either order give the same image, whose bytes 2..6 are the payload of the
higher-sequence log. -/
theorem merge_sorted_by_sequence_witness :
    apply_transaction_logs (List.replicate 8 0) [logSeq10, logSeq11] =
      .ok (listOverwrite (listOverwrite (List.replicate 8 0) pageP1.offset
        pageP1.data) pageP2.offset pageP2.data)
    ∧ apply_transaction_logs (List.replicate 8 0) [logSeq11, logSeq10] =
      apply_transaction_logs (List.replicate 8 0) [logSeq10, logSeq11]
    ∧ ((listOverwrite (listOverwrite (List.replicate 8 0) pageP1.offset
        pageP1.data) pageP2.offset pageP2.data).drop pageP2.offset).take
        pageP2.size = pageP2.data :=
  merge_sorted_by_sequence (List.replicate 8 0) logSeq10 logSeq11 pageP1 pageP2
    (by decide) rfl rfl rfl rfl rfl rfl (by decide) (by decide)


/-- C10: a key node that claims values but whose value-list offset is a
sentinel (0 or 0xFFFFFFFF) yields Ok with an empty vector on any image,
so no cell read is attempted. -/
theorem values_sentinel_empty (kn : KeyNode)
    (hc : 0 < kn.value_count)
    (hs : kn.value_list_offset = 0 ∨ kn.value_list_offset = 0xFFFFFFFF) :
    ∀ data : List Nat, registryKeyValues data kn = .ok [] := by
  intro data
  unfold registryKeyValues
  have h1 : (!kn.has_values) = false := by
    unfold KeyNode.has_values
    simp [hc]
  rw [h1]
  rw [if_neg (by simp)]
  rw [if_pos (by tauto)]

/-- C10 witness: the sentinel key node `knSentinel` on the empty image. -/
theorem values_sentinel_empty_witness :
    registryKeyValues [] knSentinel = .ok [] :=
  values_sentinel_empty knSentinel (by decide) (Or.inl rfl) []

/-- Every default-0 lookup in a byte-bounded list is below 256. -/
theorem getD_lt_256 : ∀ (l : List Nat), (∀ b ∈ l, b < 256) → ∀ i,
    l.getD i 0 < 256
  | [], _, i => by simp
  | a :: t, h, 0 => by simpa using h a (by simp)
  | a :: t, h, i + 1 => by
    simp only [List.getD_cons_succ]
    exact getD_lt_256 t (fun b hb => h b (List.mem_cons_of_mem a hb)) i

/-- A little-endian 32-bit word assembled from bounded bytes is a u32. -/
theorem leU32At_lt (l : List Nat) (h : ∀ b ∈ l, b < 256) (i : Nat) :
    leU32At l i < 2 ^ 32 := by
  unfold leU32At
  have h0 := getD_lt_256 l h i
  have h1 := getD_lt_256 l h (i + 1)
  have h2 := getD_lt_256 l h (i + 2)
  have h3 := getD_lt_256 l h (i + 3)
  omega

/-- The signed reinterpretation of a u32 is zero exactly for the zero word. -/
theorem u32ToI32_eq_zero_iff (w : Nat) (hw : w < 2 ^ 32) :
    u32ToI32 w = 0 ↔ w = 0 := by
  unfold u32ToI32
  split <;> omega

/-- The signed reinterpretation of a u32 is negative exactly when the high
bit is set. -/
theorem u32ToI32_neg_iff (w : Nat) (hw : w < 2 ^ 32) :
    u32ToI32 w < 0 ↔ 2 ^ 31 ≤ w := by
  unfold u32ToI32
  split <;> omega

/-- The body of `hbinNext` once the size word has been read. -/
theorem hbinNext_body (data : List Nat) (hb pos w : Nat)
    (hpos : ¬ data.length ≤ pos)
    (hw : read_u32_le data pos = .ok w) :
    hbinNext data hb pos =
      (if u32ToI32 w = 0 then none
       else if (u32ToI32 w).natAbs < 4 then
         some (.error (.InvalidCellSize (u32ToI32 w) ((hb + pos) % 2 ^ 32)))
       else if data.length < pos + (u32ToI32 w).natAbs then
         some (.error (.TruncatedData ((hb + pos) % 2 ^ 32)
           (u32ToI32 w).natAbs (data.length - pos)))
       else
         some (.ok ({ offset := (hb + pos) % 2 ^ 32,
                      size := (u32ToI32 w).natAbs,
                      is_allocated := decide (u32ToI32 w < 0),
                      data := (data.drop (pos + 4)).take
                        ((u32ToI32 w).natAbs - 4) },
                    pos + (u32ToI32 w).natAbs))) := by
  unfold hbinNext
  rw [if_neg hpos, hw]

/-- A successful u32 read implies the buffer holds four bytes there and
pins down the value. -/
theorem read_u32_ok_inv (data : List Nat) (pos w : Nat)
    (hw : read_u32_le data pos = .ok w) :
    pos + 4 ≤ data.length ∧ w = leU32At data pos := by
  unfold read_u32_le at hw
  by_cases hc : data.length < pos + 4
  · rw [if_pos hc] at hw
    exact absurd hw (by simp)
  · rw [if_neg hc] at hw
    injection hw with h
    exact ⟨by omega, h.symm⟩

/-- C6: hbin cell iteration terminates without error on a stored size word
of zero or an exhausted payload; a magnitude below 4 yields
InvalidCellSize; a cell reaching past the payload yields TruncatedData;
and a yielded cell is flagged allocated exactly when the stored 32-bit
size is negative (high bit set). -/
theorem hbin_cell_iteration (data : List Nat) (hbin_offset pos : Nat)
    (hbytes : ∀ b ∈ data, b < 256)
    (hu32 : hbin_offset + pos < 2 ^ 32) :
    (data.length ≤ pos → hbinNext data hbin_offset pos = none)
    ∧ (pos < data.length → data.length < pos + 4 →
        hbinNext data hbin_offset pos =
          some (.error (.TruncatedData (pos % 2 ^ 32) 4 (data.length - pos))))
    ∧ (∀ w, read_u32_le data pos = .ok w → pos < data.length → w = 0 →
        hbinNext data hbin_offset pos = none)
    ∧ (∀ w, read_u32_le data pos = .ok w → pos < data.length → w ≠ 0 →
        (u32ToI32 w).natAbs < 4 →
        hbinNext data hbin_offset pos =
          some (.error (.InvalidCellSize (u32ToI32 w) (hbin_offset + pos))))
    ∧ (∀ w, read_u32_le data pos = .ok w → pos < data.length →
        4 ≤ (u32ToI32 w).natAbs → data.length < pos + (u32ToI32 w).natAbs →
        hbinNext data hbin_offset pos =
          some (.error (.TruncatedData (hbin_offset + pos)
            (u32ToI32 w).natAbs (data.length - pos))))
    ∧ (∀ w, read_u32_le data pos = .ok w → pos < data.length →
        4 ≤ (u32ToI32 w).natAbs → pos + (u32ToI32 w).natAbs ≤ data.length →
        hbinNext data hbin_offset pos =
          some (.ok ({ offset := hbin_offset + pos,
                       size := (u32ToI32 w).natAbs,
                       is_allocated := decide (2 ^ 31 ≤ w),
                       data := (data.drop (pos + 4)).take
                         ((u32ToI32 w).natAbs - 4) },
                     pos + (u32ToI32 w).natAbs))) := by
  refine ⟨?_, ?_, ?_, ?_, ?_, ?_⟩
  · intro h
    unfold hbinNext
    rw [if_pos h]
  · intro h1 h2
    unfold hbinNext
    rw [if_neg (by omega)]
    rw [show read_u32_le data pos =
      .error (.TruncatedData (pos % 2 ^ 32) 4 (data.length - pos)) from by
        unfold read_u32_le
        rw [if_pos h2]]
  · intro w hw h1 h0
    have hwlt : w < 2 ^ 32 := by
      rw [(read_u32_ok_inv data pos w hw).2]
      exact leU32At_lt data hbytes pos
    rw [hbinNext_body data hbin_offset pos w (by omega) hw]
    rw [if_pos ((u32ToI32_eq_zero_iff w hwlt).mpr h0)]
  · intro w hw h1 h0 habs
    have hwlt : w < 2 ^ 32 := by
      rw [(read_u32_ok_inv data pos w hw).2]
      exact leU32At_lt data hbytes pos
    rw [hbinNext_body data hbin_offset pos w (by omega) hw]
    rw [if_neg (fun hz => h0 ((u32ToI32_eq_zero_iff w hwlt).mp hz))]
    rw [if_pos habs, Nat.mod_eq_of_lt hu32]
  · intro w hw h1 habs hpast
    have hwlt : w < 2 ^ 32 := by
      rw [(read_u32_ok_inv data pos w hw).2]
      exact leU32At_lt data hbytes pos
    rw [hbinNext_body data hbin_offset pos w (by omega) hw]
    rw [if_neg (by omega)]
    rw [if_neg (by omega)]
    rw [if_pos hpast, Nat.mod_eq_of_lt hu32]
  · intro w hw h1 habs hfit
    have hwlt : w < 2 ^ 32 := by
      rw [(read_u32_ok_inv data pos w hw).2]
      exact leU32At_lt data hbytes pos
    rw [hbinNext_body data hbin_offset pos w (by omega) hw]
    rw [if_neg (by omega)]
    rw [if_neg (by omega)]
    rw [if_neg (by omega)]
    rw [Nat.mod_eq_of_lt hu32]
    rw [show decide (u32ToI32 w < 0) = decide (2 ^ 31 ≤ w) from
      decide_eq_decide.mpr (u32ToI32_neg_iff w hwlt)]


/-- C6 witness: the yield branch at a concrete allocated 8-octet cell
(stored size word -8). -/
theorem hbin_cell_iteration_witness :
    hbinNext [0xF8, 0xFF, 0xFF, 0xFF, 1, 2, 3, 4] 0x20 0 =
      some (.ok ({ offset := 0x20 + 0,
                   size := (u32ToI32 4294967288).natAbs,
                   is_allocated := decide (2 ^ 31 ≤ (4294967288 : Nat)),
                   data := (([0xF8, 0xFF, 0xFF, 0xFF, 1, 2, 3, 4] :
                     List Nat).drop (0 + 4)).take
                     ((u32ToI32 4294967288).natAbs - 4) },
                 0 + (u32ToI32 4294967288).natAbs)) :=
  (hbin_cell_iteration [0xF8, 0xFF, 0xFF, 0xFF, 1, 2, 3, 4] 0x20 0
      (by decide) (by decide)).2.2.2.2.2
    4294967288 rfl (by decide) (by decide) (by decide)


/-- Default-0 lookup past the 4096-octet zero padding lands in the tail. -/
theorem getD_pad (tail : List Nat) (j : Nat) :
    (List.replicate 4096 (0 : Nat) ++ tail).getD (j + 4096) 0 =
      tail.getD j 0 := by
  rw [List.getD_append_right _ _ _ _ (by rw [List.length_replicate]; omega)]
  rw [List.length_replicate]
  rw [show j + 4096 - 4096 = j from by omega]

/-- A 32-bit read past the 4096-octet zero padding lands in the tail. -/
theorem leU32At_pad (tail : List Nat) (j : Nat) :
    leU32At (List.replicate 4096 (0 : Nat) ++ tail) (j + 4096) =
      leU32At tail j := by
  unfold leU32At
  rw [getD_pad]
  rw [show j + 4096 + 1 = (j + 1) + 4096 from by omega, getD_pad]
  rw [show j + 1 + 4096 + 1 = (j + 2) + 4096 from by omega, getD_pad]
  rw [show j + 2 + 4096 + 1 = (j + 3) + 4096 from by omega, getD_pad]

/-- Dropping past the 4096-octet zero padding lands in the tail. -/
theorem drop_pad (tail : List Nat) (j : Nat) :
    (List.replicate 4096 (0 : Nat) ++ tail).drop (j + 4096) =
      tail.drop j := by
  rw [List.drop_append_eq_append_drop]
  rw [List.drop_eq_nil_of_le (by rw [List.length_replicate]; omega)]
  rw [List.nil_append, List.length_replicate]
  rw [show j + 4096 - 4096 = j from by omega]

/-- Reading a well-formed allocated cell that lives entirely inside the
tail of a zero-padded image. -/
theorem read_cell_pad (tail : List Nat) (offset : Nat)
    (hov : offset + 4096 < 2 ^ 32)
    (hlt : offset < tail.length)
    (h4 : offset + 4 ≤ tail.length)
    (hsz : 4 ≤ (u32ToI32 (leU32At tail offset)).natAbs)
    (hend : offset + (u32ToI32 (leU32At tail offset)).natAbs ≤ tail.length) :
    read_cell (List.replicate 4096 0 ++ tail) offset =
      .ok ((tail.drop (offset + 4)).take
        ((u32ToI32 (leU32At tail offset)).natAbs - 4)) := by
  unfold read_cell
  rw [show cell_offset_to_absolute offset = .ok (offset + 4096) from by
    unfold cell_offset_to_absolute HBIN_START_OFFSET
    rw [if_pos hov]]
  rw [okBind]
  have hlen : (List.replicate 4096 (0 : Nat) ++ tail).length =
      4096 + tail.length := by
    rw [List.length_append, List.length_replicate]
  rw [if_neg (by rw [hlen]; omega)]
  rw [if_neg (by rw [hlen]; omega)]
  rw [show offset + 4096 = offset + 4096 from rfl]
  rw [leU32At_pad tail offset]
  rw [if_neg (by omega)]
  rw [if_neg (by rw [hlen]; omega)]
  rw [show offset + 4096 + 4 = (offset + 4) + 4096 from by omega]
  rw [drop_pad]

/-- The segment loop returns the accumulated prefix of the concatenation:
whatever the early-exit point, the first `expected` octets agree with the
full concatenation of the segment payloads. -/
theorem readSegments_ok (data : List Nat) :
    ∀ (offs : List Nat) (ps : List (List Nat)) (acc : List Nat)
      (expected : Nat),
    List.Forall₂ (fun o p => read_cell data o = .ok p) offs ps →
    ∃ d, readSegments data offs acc expected = .ok d ∧
      d.take expected = (acc ++ ps.flatten).take expected := by
  intro offs ps acc expected hf
  induction hf generalizing acc with
  | nil =>
    exact ⟨acc, rfl, by rw [List.flatten_nil, List.append_nil]⟩
  | cons hop hrest ih =>
    rename_i o p offs2 ps2
    unfold readSegments
    rw [hop, okBind]
    by_cases hle : expected ≤ (acc ++ p).length
    · rw [if_pos hle]
      refine ⟨acc ++ p, rfl, ?_⟩
      rw [List.flatten_cons, ← List.append_assoc]
      rw [List.take_append_of_le_length hle]
    · rw [if_neg hle]
      obtain ⟨d, hd, htake⟩ := ih (acc ++ p)
      refine ⟨d, hd, ?_⟩
      rw [htake, List.flatten_cons, ← List.append_assoc]

/-- C7: big-data reading errors with TruncatedData when the segment-offset
cell is shorter than 4·count; otherwise, with every referenced segment
cell readable, it returns the concatenation of the segment payloads
(offsets taken from the list cell with the high bit masked) truncated to
exactly the declared length. -/
theorem read_big_data_spec (data : List Nat) (offset expected : Nat)
    (hc : List Nat) (db : BigDataBlock) (sl : List Nat)
    (hhc : read_cell data offset = .ok hc)
    (hdb : BigDataBlock.parse hc offset = .ok db)
    (hsl : read_cell data db.segment_list_offset = .ok sl) :
    (sl.length < db.segment_count * 4 →
      read_big_data data offset expected =
        .error (.TruncatedData db.segment_list_offset
          (db.segment_count * 4) sl.length))
    ∧ (db.segment_count * 4 ≤ sl.length →
      ∀ ps : List (List Nat),
        List.Forall₂ (fun o p => read_cell data o = .ok p)
          ((List.range db.segment_count).map
            (fun i => leU32At sl (i * 4) &&& 0x7FFFFFFF)) ps →
        read_big_data data offset expected = .ok (ps.flatten.take expected)
        ∧ (expected ≤ ps.flatten.length →
            (ps.flatten.take expected).length = expected)) := by
  constructor
  · intro hshort
    unfold read_big_data
    rw [hhc, okBind, hdb, okBind, hsl, okBind]
    rw [if_pos hshort]
  · intro hlong ps hf
    have hrun : read_big_data data offset expected =
        .ok (ps.flatten.take expected) := by
      unfold read_big_data
      rw [hhc, okBind, hdb, okBind, hsl, okBind]
      rw [if_neg (by omega)]
      obtain ⟨d, hd, htake⟩ := readSegments_ok data
        ((List.range db.segment_count).map
          (fun i => leU32At sl (i * 4) &&& 0x7FFFFFFF)) ps [] expected hf
      show (readSegments data ((List.range db.segment_count).map
          (fun i => leU32At sl (i * 4) &&& 0x7FFFFFFF)) [] expected >>=
        fun d => Except.ok (d.take expected)) = _
      rw [hd, okBind]
      rw [htake, List.nil_append]
    refine ⟨hrun, ?_⟩
    intro hge
    rw [List.length_take]
    omega


/-- C7 witness: the miniature image `bigW`, whose two segments carry 8 and
4 octets, read back with declared length 10. -/
theorem read_big_data_spec_witness :
    read_big_data bigW 0 10 =
      .ok (([[1, 2, 3, 4, 5, 6, 7, 8], [9, 10, 11, 12]] :
        List (List Nat)).flatten.take 10)
    ∧ (10 ≤ ([[1, 2, 3, 4, 5, 6, 7, 8], [9, 10, 11, 12]] :
        List (List Nat)).flatten.length →
      (([[1, 2, 3, 4, 5, 6, 7, 8], [9, 10, 11, 12]] :
        List (List Nat)).flatten.take 10).length = 10) := by
  have hhc : read_cell bigW 0 =
      .ok [0x64, 0x62, 2, 0, 16, 0, 0, 0, 0, 0, 0, 0] := by
    have h := read_cell_pad bigWTail 0 (by norm_num) (by decide) (by decide)
      (by decide) (by decide)
    rw [show ((bigWTail.drop (0 + 4)).take
        ((u32ToI32 (leU32At bigWTail 0)).natAbs - 4)) =
      [0x64, 0x62, 2, 0, 16, 0, 0, 0, 0, 0, 0, 0] from by decide] at h
    exact h
  have hsl : read_cell bigW 16 =
      .ok [0x1C, 0, 0, 0x80, 0x28, 0, 0, 0x80] := by
    have h := read_cell_pad bigWTail 16 (by norm_num) (by decide) (by decide)
      (by decide) (by decide)
    rw [show ((bigWTail.drop (16 + 4)).take
        ((u32ToI32 (leU32At bigWTail 16)).natAbs - 4)) =
      [0x1C, 0, 0, 0x80, 0x28, 0, 0, 0x80] from by decide] at h
    exact h
  have hseg1 : read_cell bigW 28 = .ok [1, 2, 3, 4, 5, 6, 7, 8] := by
    have h := read_cell_pad bigWTail 28 (by norm_num) (by decide) (by decide)
      (by decide) (by decide)
    rw [show ((bigWTail.drop (28 + 4)).take
        ((u32ToI32 (leU32At bigWTail 28)).natAbs - 4)) =
      [1, 2, 3, 4, 5, 6, 7, 8] from by decide] at h
    exact h
  have hseg2 : read_cell bigW 40 = .ok [9, 10, 11, 12] := by
    have h := read_cell_pad bigWTail 40 (by norm_num) (by decide) (by decide)
      (by decide) (by decide)
    rw [show ((bigWTail.drop (40 + 4)).take
        ((u32ToI32 (leU32At bigWTail 40)).natAbs - 4)) =
      [9, 10, 11, 12] from by decide] at h
    exact h
  exact (read_big_data_spec bigW 0 10
      [0x64, 0x62, 2, 0, 16, 0, 0, 0, 0, 0, 0, 0]
      { segment_count := 2, segment_list_offset := 16 }
      [0x1C, 0, 0, 0x80, 0x28, 0, 0, 0x80] hhc rfl hsl).2
    (by decide)
    [[1, 2, 3, 4, 5, 6, 7, 8], [9, 10, 11, 12]]
    (List.Forall₂.cons hseg1 (List.Forall₂.cons hseg2 List.Forall₂.nil))


/-- Fold invariant preservation. -/
theorem foldl_inv {α β : Type} (P : α → Prop) (f : α → β → α) :
    ∀ (l : List β) (a : α), P a → (∀ x y, P x → P (f x y)) → P (l.foldl f a)
  | [], _, ha, _ => ha
  | _ :: t, a, ha, hf => foldl_inv P f t (f a _) (hf a _ ha) hf

/-- The XOR checksum of a byte-bounded image is a 32-bit word. -/
theorem checksum_lt (data : List Nat) (h : ∀ b ∈ data, b < 256) :
    calculate_checksum data < 2 ^ 32 := by
  unfold calculate_checksum
  apply foldl_inv (fun c => c < 2 ^ 32)
  · norm_num
  · intro x k hx
    by_cases hg : k * 4 + 4 ≤ data.length
    · rw [if_pos hg]
      rw [show read_u32_le data (k * 4) = .ok (leU32At data (k * 4)) from by
        unfold read_u32_le
        rw [if_neg (by omega)]]
      exact Nat.xor_lt_two_pow hx (leU32At_lt data h (k * 4))
    · rw [if_neg hg]
      exact hx

/-- Default-0 lookup inside the taken prefix agrees with the full list. -/
theorem getD_take : ∀ (l : List Nat) (n i : Nat), i < n →
    (l.take n).getD i 0 = l.getD i 0
  | [], _, _, _ => by simp
  | _ :: _, 0, _, h => by omega
  | a :: t, n + 1, 0, _ => by simp
  | a :: t, n + 1, i + 1, h => by
    simp only [List.take_succ_cons, List.getD_cons_succ]
    exact getD_take t n i (by omega)

/-- A 32-bit read strictly inside the first 0x1FC octets only depends on
that prefix. -/
theorem leU32At_congr_take (d1 d2 : List Nat) (i : Nat)
    (hi : i + 3 < 0x1FC) (ht : d1.take 0x1FC = d2.take 0x1FC) :
    leU32At d1 i = leU32At d2 i := by
  unfold leU32At
  rw [← getD_take d1 0x1FC i (by omega), ← getD_take d1 0x1FC (i + 1) (by omega),
    ← getD_take d1 0x1FC (i + 2) (by omega),
    ← getD_take d1 0x1FC (i + 3) (by omega), ht,
    getD_take d2 0x1FC i (by omega), getD_take d2 0x1FC (i + 1) (by omega),
    getD_take d2 0x1FC (i + 2) (by omega),
    getD_take d2 0x1FC (i + 3) (by omega)]

/-- The checksum never reads octet 0x1FC or beyond: it is determined by
the first 0x1FC octets and the total length. -/
theorem checksum_congr (d1 d2 : List Nat) (hlen : d1.length = d2.length)
    (ht : d1.take 0x1FC = d2.take 0x1FC) :
    calculate_checksum d1 = calculate_checksum d2 := by
  unfold calculate_checksum
  apply List.foldl_ext
  intro a k hk
  have hk127 : k < 127 := List.mem_range.mp hk
  by_cases hg : k * 4 + 4 ≤ d1.length
  · rw [if_pos hg, if_pos (by omega)]
    rw [show read_u32_le d1 (k * 4) = .ok (leU32At d1 (k * 4)) from by
      unfold read_u32_le
      rw [if_neg (by omega)]]
    rw [show read_u32_le d2 (k * 4) = .ok (leU32At d2 (k * 4)) from by
      unfold read_u32_le
      rw [if_neg (by omega)]]
    rw [leU32At_congr_take d1 d2 (k * 4) (by omega) ht]
  · rw [if_neg hg, if_neg (by omega)]

/-- Overwriting at `start` leaves the first `start` octets unchanged. -/
theorem listOverwrite_take_prior (img d : List Nat) (start : Nat)
    (h : start ≤ img.length) :
    (listOverwrite img start d).take start = img.take start := by
  unfold listOverwrite
  have hA : (img.take start).length = start := by
    rw [List.length_take]
    omega
  rw [List.take_append_of_le_length (by rw [List.length_append]; omega)]
  rw [List.take_append_of_le_length (by omega)]
  rw [List.take_take, Nat.min_self]

/-- Reading inside the overwritten region yields the written bytes. -/
theorem listOverwrite_getD (img d : List Nat) (start k : Nat)
    (hs : start ≤ img.length) (hk : k < d.length) :
    (listOverwrite img start d).getD (start + k) 0 = d.getD k 0 := by
  unfold listOverwrite
  have hA : (img.take start).length = start := by
    rw [List.length_take]
    omega
  rw [List.getD_append _ _ _ _ (by rw [List.length_append, hA]; omega)]
  rw [List.getD_append_right _ _ _ _ (by rw [hA]; omega)]
  rw [hA]
  rw [show start + k - start = k from by omega]

/-- Reading inside the overwritten region, index 0 variant. -/
theorem listOverwrite_getD0 (img d : List Nat) (start : Nat)
    (hs : start ≤ img.length) (hk : 0 < d.length) :
    (listOverwrite img start d).getD start 0 = d.getD 0 0 := by
  have h := listOverwrite_getD img d start 0 hs hk
  rw [Nat.add_zero] at h
  exact h

/-- Reading back the four checksum bytes written at 0x1FC recovers the
checksum word. -/
theorem checksum_read_back (data : List Nat) (c : Nat) (hc : c < 2 ^ 32)
    (hlen : 0x200 ≤ data.length) :
    read_u32_le (listOverwrite data 0x1FC (toLeBytes32 c)) 0x1FC = .ok c := by
  have hb4 : (toLeBytes32 c).length = 4 := rfl
  have hlen2 : (listOverwrite data 0x1FC (toLeBytes32 c)).length =
      data.length :=
    listOverwrite_length data 0x1FC (toLeBytes32 c) (by rw [hb4]; omega)
  unfold read_u32_le
  rw [if_neg (by omega)]
  unfold leU32At
  rw [listOverwrite_getD0 data (toLeBytes32 c) 0x1FC (by omega) (by rw [hb4]; omega)]
  rw [listOverwrite_getD data (toLeBytes32 c) 0x1FC 1 (by omega) (by rw [hb4]; omega)]
  rw [listOverwrite_getD data (toLeBytes32 c) 0x1FC 2 (by omega) (by rw [hb4]; omega)]
  rw [listOverwrite_getD data (toLeBytes32 c) 0x1FC 3 (by omega) (by rw [hb4]; omega)]
  unfold toLeBytes32
  simp only [List.getD_cons_zero, List.getD_cons_succ]
  rw [show c % 256 + 256 * (c / 256 % 256) + 65536 * (c / 65536 % 256) +
    16777216 * (c / 16777216 % 256) = c from by omega]

/-- C9: update_checksum on an image of at least 4096 octets writes the
recomputed checksum's little-endian bytes at 0x1FC; in the emitted image
the stored word at 0x1FC equals the checksum recomputed over that same
image, because the checksum computation never reads octet 0x1FC or
beyond (writing the checksum is a fixpoint). -/
theorem save_checksum_fixpoint (data : List Nat)
    (h1 : 4096 ≤ data.length) (h2 : ∀ b ∈ data, b < 256) :
    update_checksum data =
      .ok (listOverwrite data 0x1FC (toLeBytes32 (calculate_checksum data)))
    ∧ read_u32_le (listOverwrite data 0x1FC
        (toLeBytes32 (calculate_checksum data))) 0x1FC =
      .ok (calculate_checksum (listOverwrite data 0x1FC
        (toLeBytes32 (calculate_checksum data))))
    ∧ calculate_checksum (listOverwrite data 0x1FC
        (toLeBytes32 (calculate_checksum data))) = calculate_checksum data := by
  have hb4 : (toLeBytes32 (calculate_checksum data)).length = 4 := rfl
  have hfix : calculate_checksum (listOverwrite data 0x1FC
      (toLeBytes32 (calculate_checksum data))) = calculate_checksum data := by
    apply checksum_congr
    · exact listOverwrite_length data 0x1FC _ (by rw [hb4]; omega)
    · exact listOverwrite_take_prior data _ 0x1FC (by omega)
  refine ⟨?_, ?_, hfix⟩
  · unfold update_checksum
    rw [if_neg (by unfold BASE_BLOCK_SIZE; omega)]
  · rw [hfix]
    exact checksum_read_back data (calculate_checksum data)
      (checksum_lt data h2) (by omega)

/-- C9 witness: the fixpoint property at the 4096-octet all-zero image. -/
theorem save_checksum_fixpoint_witness :
    update_checksum (List.replicate 4096 0) =
      .ok (listOverwrite (List.replicate 4096 0) 0x1FC
        (toLeBytes32 (calculate_checksum (List.replicate 4096 0))))
    ∧ read_u32_le (listOverwrite (List.replicate 4096 0) 0x1FC
        (toLeBytes32 (calculate_checksum (List.replicate 4096 0)))) 0x1FC =
      .ok (calculate_checksum (listOverwrite (List.replicate 4096 0) 0x1FC
        (toLeBytes32 (calculate_checksum (List.replicate 4096 0)))))
    ∧ calculate_checksum (listOverwrite (List.replicate 4096 0) 0x1FC
        (toLeBytes32 (calculate_checksum (List.replicate 4096 0)))) =
      calculate_checksum (List.replicate 4096 0) :=
  save_checksum_fixpoint (List.replicate 4096 0)
    (by rw [List.length_replicate])
    (by intro b hb
        rw [List.eq_of_mem_replicate hb]
        omega)

end RegRs
